import Mathlib

/-!
Shallow embedding of the cursor-animation and quad-batch-rendering core of
this alacritty fork (`src/alacritty/src/display/cursor.rs` and
`src/alacritty/src/renderer/quads.rs`).  IEEE `f32` arithmetic is modelled
by exact rational arithmetic (`ℚ`); the `as u8` float-to-int cast is
modelled by its Rust semantics: truncation toward zero with saturation.
-/

/-- A 2D point in logical-pixel space (`QuadPoint` in `quads.rs`). -/
structure QuadPoint where
  x : ℚ
  y : ℚ
deriving DecidableEq, Repr

/-- 8-bit RGB color (`alacritty_terminal::term::color::Rgb`); each channel
passes through as an 8-bit value. -/
structure Rgb where
  r : ℕ
  g : ℕ
  b : ℕ
deriving DecidableEq, Repr

/-- A colored quad handed to the batch renderer (`RenderQuad` in `quads.rs`). -/
structure RenderQuad where
  points : Fin 4 → QuadPoint
  color : Rgb
  alpha : ℚ

/-- Viewport/cell sizing snapshot (`SizeInfo` accessors used by this core). -/
structure SizeInfo where
  cell_width : ℚ
  cell_height : ℚ
  padding_x : ℚ
  padding_y : ℚ
  width : ℚ
  height : ℚ

/-- Font metrics fields consumed by `update_uniforms` (`crossfont::Metrics`). -/
structure Metrics where
  descent : ℚ
  underline_position : ℚ
  underline_thickness : ℚ

/-- Cursor shape enum (`alacritty_terminal::ansi::CursorShape`). -/
inductive CursorShape where
  | Block
  | Underline
  | Beam
  | HollowBlock
  | Hidden
deriving DecidableEq, Repr

/-- Rust `f32::clamp(lo, hi)`: `min (max x lo) hi`. -/
def clampQ (x lo hi : ℚ) : ℚ := min (max x lo) hi

/-- Rust `f32::round`: round to nearest, ties away from zero. -/
def roundF (x : ℚ) : ℚ := if 0 ≤ x then (⌊x + 1/2⌋ : ℤ) else (⌈x - 1/2⌉ : ℤ)

/-- `beam` from `cursor.rs`: a vertical bar of width `thickness` and height
`height`, corners in winding order `[tl, tr, br, bl]`. -/
def beam (x y height thickness : ℚ) : Fin 4 → QuadPoint :=
  ![⟨x, y⟩,
    ⟨x + thickness, y⟩,
    ⟨x + thickness, y + height⟩,
    ⟨x, y + height⟩]

/-- `underline` from `cursor.rs`: a bottom-anchored bar of width `width` and
height `thickness`. -/
def underline (x y width height thickness : ℚ) : Fin 4 → QuadPoint :=
  let y := y + height - thickness
  ![⟨x, y⟩,
    ⟨x + width, y⟩,
    ⟨x + width, y + thickness⟩,
    ⟨x, y + thickness⟩]

/-- The animator state (`CursorRects` in `cursor.rs`). -/
structure CursorRects where
  vels : Fin 4 → ℚ
  positions : Fin 4 → QuadPoint
  index : ℕ

/-- The target-quad computation at the head of `CursorRects::update`:
origin from the grid point, thickness `(thickness * cell_width).round().max(1.)`
computed before the wide doubling, then the `match` on the shape. -/
def targetOf (shape : CursorShape) (size : SizeInfo) (thickness : ℚ)
    (col line : ℕ) (is_wide : Bool) : Fin 4 → QuadPoint :=
  let x : ℚ := (col : ℚ) * size.cell_width + size.padding_x
  let y : ℚ := (line : ℚ) * size.cell_height + size.padding_y
  let width0 := size.cell_width
  let height := size.cell_height
  let thickness := max (roundF (thickness * width0)) 1
  let width := if is_wide then width0 * 2 else width0
  match shape with
  | CursorShape.Beam => beam x y height thickness
  | CursorShape.Underline => underline x y width height thickness
  | _ => beam x y height width

/-- One iteration of the per-corner loop in `CursorRects::update`: damp the
velocity, add the normalized squared displacement, clamp to `[0.2, 1.0]`,
then blend the position toward the target.  Returns (new velocity, new
position). -/
def advanceCorner (size : SizeInfo) (v : ℚ) (p t : QuadPoint) : ℚ × QuadPoint :=
  let diffx := t.x - p.x
  let diffy := t.y - p.y
  let dist_sq := diffx * diffx + diffy * diffy
  let dist_diag_sq := size.width * size.width + size.height * size.height
  let v1 := v * (9/10)
  let v2 := v1 + (dist_sq / dist_diag_sq) * (1/10)
  let v3 := clampQ v2 (1/5) 1
  let px := p.x * (1 - v3) + t.x * v3
  let py := p.y * (1 - v3) + t.y * v3
  (v3, ⟨px, py⟩)

/-- The `for i in 0..4` loop of `CursorRects::update`, as a pure transform:
each corner is advanced independently toward `target`. -/
def CursorRects.advance (s : CursorRects) (size : SizeInfo)
    (target : Fin 4 → QuadPoint) : CursorRects where
  vels i := (advanceCorner size (s.vels i) (s.positions i) (target i)).1
  positions i := (advanceCorner size (s.vels i) (s.positions i) (target i)).2
  index := s.index

/-- `CursorRects::update`: compute the target quad for the shape, then run the
per-corner advance loop. -/
def CursorRects.update (s : CursorRects) (shape : CursorShape) (size : SizeInfo)
    (thickness : ℚ) (col line : ℕ) (is_wide : Bool) : CursorRects :=
  s.advance size (targetOf shape size thickness col line is_wide)

/-- `impl From<RenderQuad> for CursorRects`: the input quad is ignored and
every field is default-initialized (`Default::default()` zeroes). -/
def CursorRects.fromRenderQuad (_rect : RenderQuad) : CursorRects where
  vels _ := 0
  positions _ := ⟨0, 0⟩
  index := 0

/-- Iterated `advance` with a constant target. -/
def iterAdvance (size : SizeInfo) (target : Fin 4 → QuadPoint)
    (s : CursorRects) : ℕ → CursorRects
  | 0 => s
  | n + 1 => (iterAdvance size target s n).advance size target

/-- Squared displacement `diffx*diffx + diffy*diffy` between a position and a
target corner, as computed in the loop. -/
def distSq (p t : QuadPoint) : ℚ :=
  (t.x - p.x) * (t.x - p.x) + (t.y - p.y) * (t.y - p.y)

/-- Euclidean distance between a position and a target corner. -/
noncomputable def euclidDist (p t : QuadPoint) : ℝ :=
  Real.sqrt ((distSq p t : ℚ) : ℝ)

/-- A GPU-facing vertex (`Vertex` in `quads.rs`): normalized device
coordinates plus packed 8-bit color. -/
structure Vertex where
  x : ℚ
  y : ℚ
  r : ℕ
  g : ℕ
  b : ℕ
  a : ℕ
deriving DecidableEq, Repr

/-- Rust `(alpha * 255.) as u8`: the float-to-`u8` cast truncates toward zero
and saturates to `[0, 255]`. -/
def packAlpha (alpha : ℚ) : ℕ := min (⌊alpha * 255⌋.toNat) 255

/-- The vertex built for corner `i` of `quad` inside `add_quad`: NDC transform
of the corner plus the packed color channels. -/
def mkVertex (half_width half_height : ℚ) (quad : RenderQuad) (i : Fin 4) : Vertex :=
  let p := quad.points i
  { x := p.x / half_width - 1
    y := -p.y / half_height + 1
    r := quad.color.r
    g := quad.color.g
    b := quad.color.b
    a := packAlpha quad.alpha }

/-- The corner index pattern `[0, 1, 2, 0, 3, 2]` iterated by `add_quad`. -/
def cornerPattern : List (Fin 4) := [0, 1, 2, 0, 3, 2]

/-- `QuadRenderer::add_quad`: push six vertices for the quad, one per entry of
the corner pattern, in order. -/
def addQuad (half_width half_height : ℚ) (quad : RenderQuad) : List Vertex :=
  cornerPattern.map (mkVertex half_width half_height quad)

/-- The vertex-building loop of `QuadRenderer::draw`: clear the list, then
`add_quad` for each quad in order. -/
def buildVertices (half_width half_height : ℚ) : List RenderQuad → List Vertex
  | [] => []
  | quad :: rest => addQuad half_width half_height quad ++ buildVertices half_width half_height rest

/-- Observable effects of `QuadRenderer::draw`: the built vertex list, and
whether a buffer upload (`gl::BufferData`) and a draw call (`gl::DrawArrays`)
were issued — both happen iff the vertex list is nonempty. -/
structure DrawResult where
  vertices : List Vertex
  uploaded : Bool
  drew : Bool
deriving Repr

/-- `QuadRenderer::draw`: halve the viewport extents, build the vertices, and
upload/draw only when the list is nonempty. -/
def draw (size : SizeInfo) (quads : List RenderQuad) : DrawResult :=
  let half_width := size.width / 2
  let half_height := size.height / 2
  let vertices := buildVertices half_width half_height quads
  { vertices := vertices
    uploaded := !vertices.isEmpty
    drew := !vertices.isEmpty }

/-- The uniform values computed by `QuadShaderProgram::update_uniforms` before
each draw. -/
structure UniformValues where
  cell_width : ℚ
  cell_height : ℚ
  padding_x : ℚ
  padding_y : ℚ
  underline_position : ℚ
  underline_thickness : ℚ
  undercurl_position : ℚ

/-- `QuadShaderProgram::update_uniforms`: the undercurl position is
`(0.5 * descent).abs()`, the underline position is
`descent.abs() - underline_position.abs()`, and the vertical padding is the
leftover fractional-row space below the last full cell row. -/
def updateUniforms (size : SizeInfo) (metrics : Metrics) : UniformValues :=
  let position := |(1/2 : ℚ) * metrics.descent|
  let underline_position := |metrics.descent| - |metrics.underline_position|
  let viewport_height := size.height - size.padding_y
  let padding_y := viewport_height -
    (⌊viewport_height / size.cell_height⌋ : ℚ) * size.cell_height
  { cell_width := size.cell_width
    cell_height := size.cell_height
    padding_x := size.padding_x
    padding_y := padding_y
    underline_position := underline_position
    underline_thickness := metrics.underline_thickness
    undercurl_position := position }

/-! ### Helper lemmas -/

theorem clampQ_le_hi (x lo hi : ℚ) : clampQ x lo hi ≤ hi := min_le_right _ _

theorem lo_le_clampQ (x lo hi : ℚ) (h : lo ≤ hi) : lo ≤ clampQ x lo hi :=
  le_min (le_max_right _ _) h

theorem advanceCorner_fst_mem (size : SizeInfo) (v : ℚ) (p t : QuadPoint) :
    1/5 ≤ (advanceCorner size v p t).1 ∧ (advanceCorner size v p t).1 ≤ 1 :=
  ⟨lo_le_clampQ _ _ _ (by norm_num), clampQ_le_hi _ _ _⟩

theorem advanceCorner_self (size : SizeInfo) (v : ℚ) (p : QuadPoint) :
    advanceCorner size v p p = (clampQ (v * (9/10)) (1/5) 1, p) := by
  obtain ⟨px, py⟩ := p
  unfold advanceCorner
  simp only [sub_self, mul_zero, zero_mul, add_zero, zero_div, Prod.mk.injEq,
    QuadPoint.mk.injEq]
  refine ⟨trivial, ?_, ?_⟩ <;> ring

theorem distSq_nonneg (p t : QuadPoint) : 0 ≤ distSq p t :=
  add_nonneg (mul_self_nonneg _) (mul_self_nonneg _)

theorem packAlpha_eval (a : ℚ) (n : ℕ) (h1 : (n : ℚ) ≤ a * 255)
    (h2 : a * 255 < n + 1) (h3 : n ≤ 255) : packAlpha a = n := by
  have hf : ⌊a * 255⌋ = (n : ℤ) := by
    rw [Int.floor_eq_iff]
    refine ⟨by push_cast; exact h1, by push_cast; exact h2⟩
  unfold packAlpha
  rw [hf, Int.toNat_natCast, min_eq_left h3]

/-! ### Shared concrete examples (used by witnesses) -/

/-- An example sizing snapshot: 8×16 cells, no padding, 800×600 viewport. -/
def sizeEx : SizeInfo := ⟨8, 16, 0, 0, 800, 600⟩

/-- An example quad covering the full 800×600 viewport. -/
def quadEx : RenderQuad where
  points := ![⟨0, 0⟩, ⟨800, 0⟩, ⟨800, 600⟩, ⟨0, 600⟩]
  color := ⟨10, 20, 30⟩
  alpha := 1

/-- The default-initialized animator state. -/
def stateEx : CursorRects := ⟨fun _ => 0, fun _ => ⟨0, 0⟩, 0⟩

/-- An example constant target quad. -/
def targetEx : Fin 4 → QuadPoint := fun _ => ⟨30, 40⟩

/-! ### Claims -/

/-- C3: after one `advance`, each per-corner velocity equals
`clamp(v_old*0.90 + (distSq/diagSq)*0.10, 0.20, 1.00)`, hence every velocity
lies in `[0.20, 1.00]` for every state, target, and viewport size. -/
theorem c3_velocity_clamp (size : SizeInfo) (s : CursorRects)
    (target : Fin 4 → QuadPoint) (i : Fin 4) :
    (s.advance size target).vels i =
      clampQ (s.vels i * (9/10) +
        (distSq (s.positions i) (target i) /
          (size.width * size.width + size.height * size.height)) * (1/10)) (1/5) 1 ∧
    1/5 ≤ (s.advance size target).vels i ∧ (s.advance size target).vels i ≤ 1 :=
  ⟨rfl, advanceCorner_fst_mem size (s.vels i) (s.positions i) (target i)⟩

/-- C4: if the target equals the stored positions exactly and corner `i` has
velocity `v0`, one `advance` sets `vels i = clamp(v0*0.90, 0.20, 1.00)` and
leaves `positions i` unchanged. -/
theorem c4_zero_displacement (size : SizeInfo) (s : CursorRects)
    (target : Fin 4 → QuadPoint) (i : Fin 4) (v0 : ℚ)
    (ht : ∀ j, target j = s.positions j) (hv : s.vels i = v0) :
    (s.advance size target).vels i = clampQ (v0 * (9/10)) (1/5) 1 ∧
    (s.advance size target).positions i = s.positions i := by
  have h : advanceCorner size (s.vels i) (s.positions i) (target i) =
      (clampQ (s.vels i * (9/10)) (1/5) 1, s.positions i) := by
    rw [ht i]
    exact advanceCorner_self size (s.vels i) (s.positions i)
  constructor
  · show (advanceCorner size (s.vels i) (s.positions i) (target i)).1 = _
    rw [h, hv]
  · show (advanceCorner size (s.vels i) (s.positions i) (target i)).2 = _
    rw [h]

/-- C4 witness: with positions all `(3,4)`, target equal to the positions, and
velocity `1/2`, one advance yields velocity `clamp(9/20, 1/5, 1)` and keeps
position `(3,4)`. -/
theorem c4_zero_displacement_witness :
    ((⟨fun _ => 1/2, fun _ => ⟨3, 4⟩, 0⟩ : CursorRects).advance sizeEx
        (fun _ => ⟨3, 4⟩)).vels 0 = clampQ ((1/2) * (9/10)) (1/5) 1 ∧
    ((⟨fun _ => 1/2, fun _ => ⟨3, 4⟩, 0⟩ : CursorRects).advance sizeEx
        (fun _ => ⟨3, 4⟩)).positions 0 = ⟨3, 4⟩ :=
  c4_zero_displacement sizeEx ⟨fun _ => 1/2, fun _ => ⟨3, 4⟩, 0⟩
    (fun _ => ⟨3, 4⟩) 0 (1/2) (fun _ => rfl) rfl

/-- C8: drawing an empty quad list builds an empty vertex list and performs
neither a GPU buffer upload nor a draw call. -/
theorem c8_empty_noop (size : SizeInfo) :
    (draw size []).vertices = [] ∧ (draw size []).uploaded = false ∧
    (draw size []).drew = false :=
  ⟨rfl, rfl, rfl⟩

/-- C9: the vertical padding uniform equals
`vh - floor(vh / cellHeight) * cellHeight` where `vh` is the viewport height
minus the vertical padding of the sizing info. -/
theorem c9_padding_y_uniform (size : SizeInfo) (metrics : Metrics) :
    (updateUniforms size metrics).padding_y =
      (size.height - size.padding_y) -
        (⌊(size.height - size.padding_y) / size.cell_height⌋ : ℚ) *
          size.cell_height := rfl

/-- C10: the `From<RenderQuad>` conversion discards its input: every corner
position is `(0,0)`, every velocity is `0`, and the index is `0`, for every
input quad. -/
theorem c10_from_discards_input (q : RenderQuad) (i : Fin 4) :
    (CursorRects.fromRenderQuad q).positions i = ⟨0, 0⟩ ∧
    (CursorRects.fromRenderQuad q).vels i = 0 ∧
    (CursorRects.fromRenderQuad q).index = 0 :=
  ⟨rfl, rfl, rfl⟩

/-- C1 is false at `alpha = 0.5`: the code's float-to-`u8` cast truncates, so
the packed alpha is `127`, while `round(0.5 * 255) = 128` as the claim
states. -/
theorem c1_alpha_round_counterexample :
    packAlpha (1/2) = 127 ∧ (round ((1/2 : ℚ) * 255)).toNat = 128 ∧
    (127 : ℕ) ≠ 128 := by
  refine ⟨packAlpha_eval _ _ (by norm_num) (by norm_num) (by norm_num), ?_,
    by decide⟩
  norm_num [round_eq]
  rfl

/-- C1 (amended): the packed 8-bit alpha equals `trunc(alpha * 255)` (floor,
for the nonnegative range), not `round`: input `1.0` packs to `255`, `0.0`
packs to `0`, and `0.5` packs to `127`. -/
theorem c1_alpha_truncation :
    packAlpha 1 = 255 ∧ packAlpha 0 = 0 ∧ packAlpha (1/2) = 127 ∧
    ∀ alpha : ℚ, 0 ≤ alpha → alpha ≤ 1 →
      (packAlpha alpha : ℤ) = ⌊alpha * 255⌋ := by
  refine ⟨packAlpha_eval _ _ (by norm_num) (by norm_num) (by norm_num),
    packAlpha_eval _ _ (by norm_num) (by norm_num) (by norm_num),
    packAlpha_eval _ _ (by norm_num) (by norm_num) (by norm_num), ?_⟩
  intro a h0 h1
  have hmul : (0 : ℚ) ≤ a * 255 := by positivity
  have hf0 : (0 : ℤ) ≤ ⌊a * 255⌋ := Int.floor_nonneg.mpr hmul
  have hle : a * 255 ≤ 255 := by nlinarith
  have hf255 : ⌊a * 255⌋ ≤ 255 := by
    have h := Int.floor_le_floor (α := ℚ) hle
    simpa using h
  have htn : ⌊a * 255⌋.toNat ≤ 255 := by omega
  unfold packAlpha
  rw [min_eq_left htn]
  omega

/-- C1 witness: at `alpha = 3/4` the packed alpha is `⌊3/4 * 255⌋ = 191`. -/
theorem c1_alpha_truncation_witness : (packAlpha (3/4) : ℤ) = 191 := by
  have h := c1_alpha_truncation.2.2.2 (3/4) (by norm_num) (by norm_num)
  rw [h, show ⌊(3/4 : ℚ) * 255⌋ = 191 by rw [Int.floor_eq_iff]; norm_num]

/-- C2 is false: with `cellWidth = 8`, `cellHeight = 16` and the fallback
`Block` shape, the target quad's horizontal extent is `8` (the cell width),
not `16` (the cell height) as the claim states. -/
theorem c2_fallback_counterexample :
    (targetOf CursorShape.Block sizeEx (1/5) 0 0 false 1).x -
      (targetOf CursorShape.Block sizeEx (1/5) 0 0 false 0).x = 8 ∧
    ¬((targetOf CursorShape.Block sizeEx (1/5) 0 0 false 1).x -
      (targetOf CursorShape.Block sizeEx (1/5) 0 0 false 0).x = 16) := by
  have h : (targetOf CursorShape.Block sizeEx (1/5) 0 0 false 1).x -
      (targetOf CursorShape.Block sizeEx (1/5) 0 0 false 0).x = 8 := by
    norm_num [targetOf, sizeEx, beam]
  exact ⟨h, by rw [h]; norm_num⟩

/-- C2 (amended): for every shape other than Beam and Underline (the fallback
branch, including the disabled hollow-block variant), the target quad is the
beam formula with its thickness argument replaced by the effective cell width
— a full block whose horizontal extent is cellWidth (doubled when wide) and
whose vertical extent is cellHeight. -/
theorem c2_fallback_full_block (shape : CursorShape) (size : SizeInfo)
    (thickness : ℚ) (col line : ℕ) (is_wide : Bool)
    (hb : shape ≠ CursorShape.Beam) (hu : shape ≠ CursorShape.Underline) :
    targetOf shape size thickness col line is_wide =
      beam ((col : ℚ) * size.cell_width + size.padding_x)
        ((line : ℚ) * size.cell_height + size.padding_y)
        size.cell_height
        (if is_wide then size.cell_width * 2 else size.cell_width) ∧
    (targetOf shape size thickness col line is_wide 1).x -
      (targetOf shape size thickness col line is_wide 0).x =
        (if is_wide then size.cell_width * 2 else size.cell_width) ∧
    (targetOf shape size thickness col line is_wide 3).y -
      (targetOf shape size thickness col line is_wide 0).y =
        size.cell_height := by
  have hT : targetOf shape size thickness col line is_wide =
      beam ((col : ℚ) * size.cell_width + size.padding_x)
        ((line : ℚ) * size.cell_height + size.padding_y)
        size.cell_height
        (if is_wide then size.cell_width * 2 else size.cell_width) := by
    cases shape with
    | Beam => exact absurd rfl hb
    | Underline => exact absurd rfl hu
    | Block => rfl
    | HollowBlock => rfl
    | Hidden => rfl
  refine ⟨hT, ?_, ?_⟩ <;> rw [hT] <;> simp [beam]

/-- C2 witness: the `Block` fallback at an 8×16 cell with no padding yields
the full-block quad `[(0,0),(8,0),(8,16),(0,16)]` with extents 8 and 16. -/
theorem c2_fallback_full_block_witness :
    targetOf CursorShape.Block sizeEx (1/5) 0 0 false =
      beam ((0 : ℕ) * sizeEx.cell_width + sizeEx.padding_x)
        ((0 : ℕ) * sizeEx.cell_height + sizeEx.padding_y)
        sizeEx.cell_height
        (if false then sizeEx.cell_width * 2 else sizeEx.cell_width) ∧
    (targetOf CursorShape.Block sizeEx (1/5) 0 0 false 1).x -
      (targetOf CursorShape.Block sizeEx (1/5) 0 0 false 0).x =
        (if false then sizeEx.cell_width * 2 else sizeEx.cell_width) ∧
    (targetOf CursorShape.Block sizeEx (1/5) 0 0 false 3).y -
      (targetOf CursorShape.Block sizeEx (1/5) 0 0 false 0).y =
        sizeEx.cell_height :=
  c2_fallback_full_block CursorShape.Block sizeEx (1/5) 0 0 false
    (by decide) (by decide)

theorem distSq_advanceCorner (size : SizeInfo) (v : ℚ) (p t : QuadPoint) :
    distSq (advanceCorner size v p t).2 t =
      (1 - (advanceCorner size v p t).1) * (1 - (advanceCorner size v p t).1) *
        distSq p t := by
  simp only [advanceCorner, distSq]
  ring

theorem distSq_advanceCorner_le (size : SizeInfo) (v : ℚ) (p t : QuadPoint) :
    distSq (advanceCorner size v p t).2 t ≤ 16/25 * distSq p t := by
  obtain ⟨h1, h2⟩ := advanceCorner_fst_mem size v p t
  have hd := distSq_nonneg p t
  rw [distSq_advanceCorner]
  nlinarith [mul_nonneg (mul_nonneg
    (by linarith : (0:ℚ) ≤ 4/5 - (1 - (advanceCorner size v p t).1))
    (by linarith : (0:ℚ) ≤ 4/5 + (1 - (advanceCorner size v p t).1))) hd]

theorem distSq_iterAdvance_le (size : SizeInfo) (target : Fin 4 → QuadPoint)
    (s : CursorRects) (i : Fin 4) (n : ℕ) :
    distSq ((iterAdvance size target s n).positions i) (target i) ≤
      (16/25)^n * distSq (s.positions i) (target i) := by
  induction n with
  | zero => simp [iterAdvance]
  | succ n ih =>
    have hstep := distSq_advanceCorner_le size
      ((iterAdvance size target s n).vels i)
      ((iterAdvance size target s n).positions i) (target i)
    calc distSq ((iterAdvance size target s (n+1)).positions i) (target i)
        = distSq ((advanceCorner size ((iterAdvance size target s n).vels i)
            ((iterAdvance size target s n).positions i) (target i)).2)
            (target i) := rfl
      _ ≤ 16/25 * distSq ((iterAdvance size target s n).positions i)
            (target i) := hstep
      _ ≤ 16/25 * ((16/25)^n * distSq (s.positions i) (target i)) :=
            mul_le_mul_of_nonneg_left ih (by norm_num)
      _ = (16/25)^(n+1) * distSq (s.positions i) (target i) := by ring

/-- C5: with a constant target, the Euclidean distance from each corner to its
target strictly decreases at every `advance` while it is nonzero, and repeated
`advance` brings it below every positive epsilon. -/
theorem c5_convergence (size : SizeInfo) (target : Fin 4 → QuadPoint)
    (s : CursorRects) (i : Fin 4) :
    (0 < euclidDist (s.positions i) (target i) →
      euclidDist ((s.advance size target).positions i) (target i) <
        euclidDist (s.positions i) (target i)) ∧
    (∀ ε : ℝ, 0 < ε → ∃ n : ℕ,
      euclidDist ((iterAdvance size target s n).positions i) (target i) < ε) := by
  constructor
  · intro hpos
    have hd0 : (0:ℝ) < ((distSq (s.positions i) (target i) : ℚ) : ℝ) :=
      Real.sqrt_pos.mp hpos
    have hdq : (0:ℚ) < distSq (s.positions i) (target i) := by exact_mod_cast hd0
    have hlt : distSq ((s.advance size target).positions i) (target i) <
        distSq (s.positions i) (target i) := by
      have h := distSq_advanceCorner_le size (s.vels i) (s.positions i) (target i)
      have h2 : (16/25 : ℚ) * distSq (s.positions i) (target i) <
          distSq (s.positions i) (target i) := by nlinarith
      calc distSq ((s.advance size target).positions i) (target i)
          = distSq ((advanceCorner size (s.vels i) (s.positions i)
              (target i)).2) (target i) := rfl
        _ ≤ 16/25 * distSq (s.positions i) (target i) := h
        _ < distSq (s.positions i) (target i) := h2
    exact Real.sqrt_lt_sqrt (by exact_mod_cast distSq_nonneg _ _)
      (by exact_mod_cast hlt)
  · intro ε hε
    by_cases hd : distSq (s.positions i) (target i) = 0
    · refine ⟨0, ?_⟩
      have h0 : distSq ((iterAdvance size target s 0).positions i) (target i) =
          distSq (s.positions i) (target i) := rfl
      rw [euclidDist, h0, hd]
      simpa using hε
    · have hd0 : (0:ℚ) < distSq (s.positions i) (target i) :=
        lt_of_le_of_ne (distSq_nonneg _ _) (Ne.symm hd)
      have hd0R : (0:ℝ) < ((distSq (s.positions i) (target i) : ℚ) : ℝ) := by
        exact_mod_cast hd0
      obtain ⟨n, hn⟩ := exists_pow_lt_of_lt_one
        (show (0:ℝ) < ε^2 / ((distSq (s.positions i) (target i) : ℚ) : ℝ) by
          positivity)
        (show (16/25 : ℝ) < 1 by norm_num)
      refine ⟨n, ?_⟩
      rw [euclidDist, Real.sqrt_lt' hε]
      have hn2 : (16/25 : ℝ)^n * ((distSq (s.positions i) (target i) : ℚ) : ℝ) <
          ε^2 := (lt_div_iff₀ hd0R).mp hn
      have hub := distSq_iterAdvance_le size target s i n
      calc ((distSq ((iterAdvance size target s n).positions i)
          (target i) : ℚ) : ℝ)
          ≤ (((16/25 : ℚ)^n * distSq (s.positions i) (target i) : ℚ) : ℝ) := by
            exact_mod_cast hub
        _ = (16/25 : ℝ)^n * ((distSq (s.positions i) (target i) : ℚ) : ℝ) := by
            push_cast
            ring
        _ < ε^2 := hn2

/-- C5 witness: from the zero state toward the constant corner `(30,40)` the
distance drops on the first advance and falls below `1` after finitely many
advances. -/
theorem c5_convergence_witness :
    (euclidDist ((stateEx.advance sizeEx targetEx).positions 0) (targetEx 0) <
      euclidDist (stateEx.positions 0) (targetEx 0)) ∧
    ∃ n : ℕ, euclidDist ((iterAdvance sizeEx targetEx stateEx n).positions 0)
      (targetEx 0) < 1 := by
  have h := c5_convergence sizeEx targetEx stateEx 0
  have hpos : 0 < euclidDist (stateEx.positions 0) (targetEx 0) := by
    rw [euclidDist]
    apply Real.sqrt_pos.mpr
    norm_num [distSq, stateEx, targetEx]
  exact ⟨h.1 hpos, h.2 1 (by norm_num)⟩

theorem buildVertices_length (half_width half_height : ℚ)
    (quads : List RenderQuad) :
    (buildVertices half_width half_height quads).length = 6 * quads.length := by
  induction quads with
  | nil => rfl
  | cons q rest ih =>
    simp only [buildVertices, List.length_append, List.length_cons, ih,
      addQuad, cornerPattern, List.length_map, List.length_nil]
    omega

theorem buildVertices_getD (half_width half_height : ℚ)
    (quads : List RenderQuad) (dv : Vertex) (dq : RenderQuad) (k j : ℕ)
    (hk : k < quads.length) (hj : j < 6) :
    (buildVertices half_width half_height quads).getD (6 * k + j) dv =
      mkVertex half_width half_height (quads.getD k dq)
        (cornerPattern.getD j 0) := by
  induction quads generalizing k with
  | nil => simp at hk
  | cons q rest ih =>
    cases k with
    | zero =>
      have hlen : j < (addQuad half_width half_height q).length := by
        simpa [addQuad, cornerPattern] using hj
      rw [show 6 * 0 + j = j by ring]
      show ((addQuad half_width half_height q) ++
        buildVertices half_width half_height rest).getD j dv = _
      rw [List.getD_append _ _ _ _ hlen]
      interval_cases j <;> rfl
    | succ k =>
      have hlen6 : (addQuad half_width half_height q).length = 6 := rfl
      have hlen : (addQuad half_width half_height q).length ≤ 6 * (k+1) + j := by
        rw [hlen6]; omega
      show ((addQuad half_width half_height q) ++
        buildVertices half_width half_height rest).getD (6 * (k+1) + j) dv = _
      rw [List.getD_append_right _ _ _ _ hlen]
      have harith : 6 * (k+1) + j - (addQuad half_width half_height q).length =
          6 * k + j := by
        rw [hlen6]; omega
      rw [harith]
      have hk2 : k < rest.length := by
        simpa using Nat.lt_of_succ_lt_succ hk
      rw [ih k hk2]
      rfl

/-- C6: an ordered batch of `N` quads yields exactly `6*N` vertices; quad `k`
contributes the vertices at positions `6*k .. 6*k+5`, emitted with corner
index pattern `[0,1,2,0,3,2]`, each vertex built from one of that quad's four
corner points. -/
theorem c6_triangulation (half_width half_height : ℚ)
    (quads : List RenderQuad) :
    (buildVertices half_width half_height quads).length = 6 * quads.length ∧
    ∀ (dv : Vertex) (dq : RenderQuad) (k j : ℕ), k < quads.length → j < 6 →
      (buildVertices half_width half_height quads).getD (6 * k + j) dv =
        mkVertex half_width half_height (quads.getD k dq)
          (cornerPattern.getD j 0) :=
  ⟨buildVertices_length half_width half_height quads,
   fun dv dq k j hk hj =>
     buildVertices_getD half_width half_height quads dv dq k j hk hj⟩

/-- C6 witness: in the single-quad batch the fifth emitted vertex (position
`6*0 + 4`) is the one built from corner `3` of the quad, per the pattern. -/
theorem c6_triangulation_witness :
    (buildVertices 400 300 [quadEx]).getD (6 * 0 + 4) ⟨0, 0, 0, 0, 0, 0⟩ =
      mkVertex 400 300 ([quadEx].getD 0 quadEx) (cornerPattern.getD 4 0) :=
  (c6_triangulation 400 300 [quadEx]).2 ⟨0, 0, 0, 0, 0, 0⟩ quadEx 0 4
    (by norm_num) (by norm_num)

/-- C7: every built vertex's device coordinates come from a source corner via
`x/halfW - 1` and `-y/halfH + 1`; with an 800×600 viewport, pixel `(0,0)`
maps to `(-1, 1)` and pixel `(800,600)` maps to `(1, -1)`. -/
theorem c7_ndc_transform :
    (∀ (half_width half_height : ℚ) (quads : List RenderQuad) (v : Vertex),
      v ∈ buildVertices half_width half_height quads →
      ∃ q ∈ quads, ∃ i : Fin 4,
        v.x = (q.points i).x / half_width - 1 ∧
        v.y = -(q.points i).y / half_height + 1) ∧
    ((draw sizeEx [quadEx]).vertices.getD 0 ⟨0, 0, 0, 0, 0, 0⟩).x = -1 ∧
    ((draw sizeEx [quadEx]).vertices.getD 0 ⟨0, 0, 0, 0, 0, 0⟩).y = 1 ∧
    ((draw sizeEx [quadEx]).vertices.getD 2 ⟨0, 0, 0, 0, 0, 0⟩).x = 1 ∧
    ((draw sizeEx [quadEx]).vertices.getD 2 ⟨0, 0, 0, 0, 0, 0⟩).y = -1 := by
  constructor
  · intro half_width half_height quads v hv
    induction quads with
    | nil => simp [buildVertices] at hv
    | cons q rest ih =>
      rw [buildVertices] at hv
      rcases List.mem_append.mp hv with h1 | h2
      · obtain ⟨i, _, rfl⟩ := List.mem_map.mp (by simpa [addQuad] using h1)
        exact ⟨q, List.mem_cons_self q rest, i, rfl, rfl⟩
      · obtain ⟨q2, hq2, hres⟩ := ih h2
        exact ⟨q2, List.mem_cons_of_mem q hq2, hres⟩
  · refine ⟨?_, ?_, ?_, ?_⟩ <;>
      norm_num [draw, buildVertices, addQuad, cornerPattern, mkVertex,
        sizeEx, quadEx]

/-- C7 witness: the first vertex of the example batch is the transform of one
of the example quad's corners. -/
theorem c7_ndc_transform_witness :
    ∃ q ∈ [quadEx], ∃ i : Fin 4,
      (mkVertex 400 300 quadEx 0).x = (q.points i).x / 400 - 1 ∧
      (mkVertex 400 300 quadEx 0).y = -(q.points i).y / 300 + 1 :=
  c7_ndc_transform.1 400 300 [quadEx] (mkVertex 400 300 quadEx 0)
    (by
      show mkVertex 400 300 quadEx 0 ∈
        addQuad 400 300 quadEx ++ buildVertices 400 300 []
      exact List.mem_append_left _
        (List.mem_map_of_mem _ (by simp [cornerPattern])))
